import Mathlib

/-!
Verification development for the arveldaja proxy: a shallow embedding of the
capture → approval → execution pipeline (src/db/index.ts, src/routes/api.ts,
src/routes/changesets.ts, src/middleware/capture.ts, src/utils/executor.ts,
src/utils/auth.ts), with theorems settling the specification's claims.

Modelling conventions:
- The SQLite store is a pair of lists (changesets, pending_changes) kept in
  insertion order; `created_at` is assigned monotonically at insertion time,
  so the schema's `ORDER BY created_at ASC` over one changeset's members is
  reproduced by filtering the insertion-ordered list.
- JavaScript `x || null` coercion on optional strings is `jsFalsyOpt`
  (the empty string is falsy and becomes NULL).
- The downstream HTTP call made by `executeChange` is an oracle parameter
  `exec : Change → Except String String` (error message, or response JSON
  text); route handlers thread it explicitly.
-/

namespace ArveldajaProxy

/-- JS truthiness of an optional string (`undefined` and `""` are falsy). -/
def jsTruthy : Option String → Bool
  | none => false
  | some s => s ≠ ""

/-- Models the `v || null` coercions in `updatePendingChangeStatus`
(db/index.ts line 392): a falsy value is stored as NULL. -/
def jsFalsyOpt : Option String → Option String
  | none => none
  | some s => if s = "" then none else some s

/-- Status column of both tables: 'pending' | 'approved' | 'rejected'. -/
inductive Status
  | pending
  | approved
  | rejected
deriving DecidableEq, Repr

/-- Row of the `changesets` table (db/index.ts lines 21-29). -/
structure Changeset where
  id : String
  name : String
  description : Option String
  status : Status
  createdAt : String
  resolvedAt : Option String
  resolvedBy : Option String
deriving DecidableEq, Repr

/-- Row of the `pending_changes` table (db/index.ts lines 31-47). -/
structure Change where
  id : String
  changesetId : Option String
  method : String
  path : String
  originalUrl : String
  headers : List (String × String)
  body : Option String
  query : List (String × String)
  status : Status
  createdAt : String
  resolvedAt : Option String
  resolvedBy : Option String
  response : Option String
  error : Option String
deriving DecidableEq, Repr

/-- The whole database, rows in insertion order. -/
structure Store where
  changesets : List Changeset
  changes : List Change
deriving DecidableEq, Repr

/-- `INSERT INTO changesets` (createChangeset, db/index.ts lines 67-93). -/
def createChangeset (cs : Changeset) (s : Store) : Store :=
  { s with changesets := s.changesets ++ [cs] }

/-- `INSERT INTO pending_changes` (createPendingChange, db/index.ts lines 249-282). -/
def createPendingChange (c : Change) (s : Store) : Store :=
  { s with changes := s.changes ++ [c] }

/-- `SELECT * FROM pending_changes WHERE id = ?` (getPendingChangeById,
db/index.ts lines 337-373). -/
def getPendingChangeById (id : String) (s : Store) : Option Change :=
  s.changes.find? (fun c => c.id = id)

/-- `SELECT * FROM changesets WHERE id = ?` (getChangesetById /
the changeset half of getChangesetWithChanges, db/index.ts lines 174-193). -/
def findChangeset (id : String) (s : Store) : Option Changeset :=
  s.changesets.find? (fun cs => cs.id = id)

/-- `SELECT * FROM pending_changes WHERE changeset_id = ? ORDER BY created_at ASC`
(the changes half of getChangesetWithChanges, db/index.ts line 195). -/
def membersOf (csId : String) (s : Store) : List Change :=
  s.changes.filter (fun c => c.changesetId = some csId)

/-- The row-level effect of `updatePendingChangeStatus` on the matched row
(db/index.ts lines 388-392): status, resolved_at, resolved_by, response and
error are all overwritten; response/error go through `v || null`. -/
def updChange (st : Status) (resolvedBy : String) (response error : Option String)
    (now : String) (c : Change) : Change :=
  { c with
    status := st
    resolvedAt := some now
    resolvedBy := some resolvedBy
    response := jsFalsyOpt response
    error := jsFalsyOpt error }

/-- `UPDATE pending_changes SET status=?, resolved_at=?, resolved_by=?,
response=?, error=? WHERE id = ?` (updatePendingChangeStatus, db/index.ts
lines 375-399).  Note: the WHERE clause matches on id only — there is no
`AND status = 'pending'` guard. -/
def updatePendingChangeStatus (id : String) (st : Status) (resolvedBy : String)
    (response error : Option String) (now : String) (s : Store) : Store :=
  { s with
    changes := s.changes.map (fun c =>
      if c.id = id then updChange st resolvedBy response error now c else c) }

/-- `UPDATE changesets SET status=?, resolved_at=?, resolved_by=? WHERE id=?`
(updateChangesetStatus, db/index.ts lines 224-246). -/
def updateChangesetStatus (id : String) (st : Status) (resolvedBy : String)
    (now : String) (s : Store) : Store :=
  { s with
    changesets := s.changesets.map (fun cs =>
      if cs.id = id then
        { cs with status := st, resolvedAt := some now, resolvedBy := some resolvedBy }
      else cs) }

/-- `UPDATE pending_changes SET changeset_id = ? WHERE id IN (...)`
(moveChangesToChangeset, db/index.ts lines 453-472).  No condition on the
changes' own status. -/
def moveChangesToChangeset (changeIds : List String) (csId : String) (s : Store) : Store :=
  { s with
    changes := s.changes.map (fun c =>
      if c.id ∈ changeIds then { c with changesetId := some csId } else c) }

/-! ## Single-change approval/rejection routes (src/routes/api.ts) -/

/-- Outcome of `POST /changes/:id/approve` (api.ts lines 35-85). -/
inductive ApproveResult
  | notFound
  | conflict (current : Status)
  | ok (resp : String)
  | execFailed (msg : String)
deriving DecidableEq, Repr

/-- `POST /changes/:id/approve` (api.ts lines 35-85): read the change, 404 if
absent, 400-conflict if not pending, otherwise execute and record the
outcome (approved + response on success; rejected + error message on
failure, done in the catch block with the same id and resolvedBy). -/
def approveChange (exec : Change → Except String String) (id resolvedBy now : String)
    (s : Store) : ApproveResult × Store :=
  match getPendingChangeById id s with
  | none => (.notFound, s)
  | some c =>
    if c.status ≠ .pending then (.conflict c.status, s)
    else
      match exec c with
      | .ok r =>
        (.ok r, updatePendingChangeStatus c.id .approved resolvedBy (some r) none now s)
      | .error e =>
        (.execFailed e, updatePendingChangeStatus id .rejected resolvedBy none (some e) now s)

/-- Outcome of `POST /changes/:id/reject` (api.ts lines 88-121). -/
inductive RejectResult
  | notFound
  | conflict (current : Status)
  | ok
deriving DecidableEq, Repr

/-- `POST /changes/:id/reject` (api.ts lines 88-121): no executor call; a
pending change is marked rejected with the supplied reason. -/
def rejectChange (id resolvedBy : String) (reason : Option String) (now : String)
    (s : Store) : RejectResult × Store :=
  match getPendingChangeById id s with
  | none => (.notFound, s)
  | some c =>
    if c.status ≠ .pending then (.conflict c.status, s)
    else (.ok, updatePendingChangeStatus c.id .rejected resolvedBy none reason now s)

/-! ## Changeset-level routes (src/routes/changesets.ts) -/

/-- One element of the `results` array built by the changeset approval loop
(changesets.ts lines 93, 108, 119). -/
structure ItemResult where
  changeId : String
  success : Bool
  error : Option String
deriving DecidableEq, Repr

/-- Accumulated outcome of the changeset approval loop: the evolved store,
the `results` array, the `hasErrors` flag, and the ids of the changes that
were actually executed against the downstream API, in order. -/
structure LoopOut where
  store : Store
  results : List ItemResult
  hasErrors : Bool
  execLog : List String
deriving DecidableEq, Repr

/-- The `for (const change of changes)` loop of `POST /changesets/:id/approve`
(changesets.ts lines 97-121): non-pending members are skipped; a pending
member is executed; on success it is marked approved with the serialized
response, on failure `hasErrors` is set and it is marked rejected with the
error message.  The loop iterates over the member snapshot read before the
loop, threading the store through the updates. -/
def approveLoop (exec : Change → Except String String) (resolvedBy now : String) :
    List Change → Store → LoopOut
  | [], s => ⟨s, [], false, []⟩
  | c :: rest, s =>
    if c.status ≠ .pending then approveLoop exec resolvedBy now rest s
    else
      match exec c with
      | .ok r =>
        let s1 := updatePendingChangeStatus c.id .approved resolvedBy (some r) none now s
        let out := approveLoop exec resolvedBy now rest s1
        ⟨out.store, ⟨c.id, true, none⟩ :: out.results, out.hasErrors, c.id :: out.execLog⟩
      | .error e =>
        let s1 := updatePendingChangeStatus c.id .rejected resolvedBy none (some e) now s
        let out := approveLoop exec resolvedBy now rest s1
        ⟨out.store, ⟨c.id, false, some e⟩ :: out.results, true, c.id :: out.execLog⟩

/-- Error responses of the changeset routes. -/
inductive RouteErr
  | notFound
  | alreadyResolved (current : Status)
  | validation
deriving DecidableEq, Repr

/-- `POST /changesets/:id/approve` (changesets.ts lines 76-141): 404 when the
changeset is unknown, 400 when it is not pending; otherwise run the member
loop, then set the changeset status to rejected when `hasErrors` and
approved otherwise. -/
def approveChangeset (exec : Change → Except String String)
    (csId resolvedBy now : String) (s : Store) : Except RouteErr LoopOut :=
  match findChangeset csId s with
  | none => .error .notFound
  | some cs =>
    if cs.status ≠ .pending then .error (.alreadyResolved cs.status)
    else
      let out := approveLoop exec resolvedBy now (membersOf csId s) s
      let final : Status := if out.hasErrors then .rejected else .approved
      .ok { out with store := updateChangesetStatus csId final resolvedBy now out.store }

/-- `POST /changesets/:id/changes` (changesets.ts lines 191-222): requires a
non-empty id array and a pending target changeset, then reassigns the listed
changes to it via `moveChangesToChangeset` — with no check whatsoever on the
status of the moved changes themselves. -/
def addChangesToChangeset (changeIds : List String) (csId : String) (s : Store) :
    Except RouteErr Store :=
  if changeIds.isEmpty then .error .validation
  else
    match findChangeset csId s with
    | none => .error .notFound
    | some cs =>
      if cs.status ≠ .pending then .error (.alreadyResolved cs.status)
      else .ok (moveChangesToChangeset changeIds csId s)

/-! ## Payload transform of the executor (src/utils/executor.ts lines 37-87)

The journal body is modelled structurally, as the fields the transform reads
and writes; all other keys of the JSON object travel in `rest` untouched.
JavaScript numbers that can be NaN are `Option ℚ` / `Option ℤ` with `none`
playing NaN (JSON-serialized as `null`). -/

/-- Numeric value of a decimal digit character, `none` otherwise. -/
def digitVal (c : Char) : Option Nat :=
  if '0' ≤ c ∧ c ≤ '9' then some (c.toNat - 48) else none

/-- Longest digit run at the head of a character list, and the remainder. -/
def takeDigits : List Char → List Nat × List Char
  | [] => ([], [])
  | c :: cs =>
    match digitVal c with
    | some d =>
      let (ds, rest) := takeDigits cs
      (d :: ds, rest)
    | none => ([], c :: cs)

/-- Natural number denoted by a digit list (most significant first). -/
def natOfDigits (ds : List Nat) : Nat := ds.foldl (fun a d => a * 10 + d) 0

/-- ASCII whitespace skipped by JS numeric parsing. -/
def isSpaceChar (c : Char) : Bool :=
  c = ' ' || c = '\t' || c = '\n' || c = '\r'

/-- Models JS `parseFloat` on the decimal literals this pipeline meets:
leading whitespace skipped, optional sign, integer digits, optional fraction
after `.`, longest valid prefix, trailing garbage ignored; `none` (NaN) when
no digit was consumed. -/
def parseFloatJs (s : String) : Option ℚ :=
  let cs := s.toList.dropWhile isSpaceChar
  let (neg, cs1) : Bool × List Char :=
    match cs with
    | '-' :: r => (true, r)
    | '+' :: r => (false, r)
    | r => (false, r)
  let (ip, cs2) := takeDigits cs1
  let (fp, _) : List Nat × List Char :=
    match cs2 with
    | '.' :: r => takeDigits r
    | r => ([], r)
  if ip.isEmpty ∧ fp.isEmpty then none
  else
    let mag : ℚ := (natOfDigits ip : ℚ) + (natOfDigits fp : ℚ) / ((10 : ℚ) ^ fp.length)
    some (if neg then -mag else mag)

/-- JS `parseFloat` applied to a possibly-absent string field
(`parseFloat(undefined)` is NaN). -/
def parseFloatJsOpt : Option String → Option ℚ
  | none => none
  | some s => parseFloatJs s

/-- Models JS `parseInt` (radix 10) on the account codes this pipeline meets:
optional sign, longest leading digit run; `none` (NaN) when no digit. -/
def parseIntJs (s : String) : Option Int :=
  let cs := s.toList.dropWhile isSpaceChar
  let (neg, cs1) : Bool × List Char :=
    match cs with
    | '-' :: r => (true, r)
    | '+' :: r => (false, r)
    | r => (false, r)
  let (ds, _) := takeDigits cs1
  if ds.isEmpty then none
  else some (if neg then -(natOfDigits ds : Int) else (natOfDigits ds : Int))

/-- `parseInt` on a possibly-absent field. -/
def parseIntJsOpt : Option String → Option Int
  | none => none
  | some s => parseIntJs s

/-- One element of the simplified `transactions` array
(executor.ts lines 52-72 read exactly these three keys). -/
structure Tx where
  debit_account : Option String
  credit_account : Option String
  amount : Option String
deriving DecidableEq, Repr

/-- One element of the downstream-native `postings` array as built by the
transform (executor.ts lines 54-61 and 64-71). -/
structure Posting where
  accounts_id : Option Int
  type : String
  amount : Option ℚ
  base_amount : Option ℚ
  cl_currencies_id : String
  is_deleted : Bool
deriving DecidableEq, Repr

/-- The journal-entry body as the transform sees it: the four keys it reads
or writes, plus the untouched remainder of the JSON object. -/
structure JPayload where
  title : Option String
  description : Option String
  transactions : Option (List Tx)
  postings : Option (List Posting)
  rest : List (String × String)
deriving DecidableEq, Repr

/-- `normalizeJournalPayload` (executor.ts lines 42-47): when `description`
is truthy and `title` falsy, `title` is set to `description`. -/
def normalizeJournalPayload (p : JPayload) : JPayload :=
  if jsTruthy p.description ∧ ¬ jsTruthy p.title then { p with title := p.description }
  else p

/-- The postings produced from one simplified transaction line (executor.ts
lines 53-72): a debit entry when `debit_account` is truthy, then a credit
entry when `credit_account` is truthy; both amount fields are
`parseFloat(tx.amount)`, currency is the hard-coded base currency EUR, and
the line is marked not-deleted.  A non-numeric amount silently yields NaN
(`none`) — `parseFloat` never throws. -/
def txPostings (tx : Tx) : List Posting :=
  (if jsTruthy tx.debit_account then
    [⟨parseIntJsOpt tx.debit_account, "D", parseFloatJsOpt tx.amount,
      parseFloatJsOpt tx.amount, "EUR", false⟩]
   else []) ++
  (if jsTruthy tx.credit_account then
    [⟨parseIntJsOpt tx.credit_account, "C", parseFloatJsOpt tx.amount,
      parseFloatJsOpt tx.amount, "EUR", false⟩]
   else [])

/-- JS truthiness of an optional array field: any present array (even empty)
is truthy, `undefined` is falsy. -/
def arrTruthy {α : Type} : Option (List α) → Bool
  | none => false
  | some _ => true

/-- The body transform of `executeChange` (executor.ts lines 39-87): when the
body has a truthy `transactions` field and a falsy `postings` field, each
transaction expands via `txPostings`, `normalizeJournalPayload` is applied,
and the `transactions` key is deleted; otherwise only
`normalizeJournalPayload` is applied. -/
def transformJournalBody (p : JPayload) : JPayload :=
  if arrTruthy p.transactions ∧ ¬ arrTruthy p.postings then
    let postings := (p.transactions.getD []).flatMap txPostings
    let apiBody := normalizeJournalPayload { p with postings := some postings }
    { apiBody with transactions := none }
  else normalizeJournalPayload p

/-- Pre-network failure of `executeChange`: the only way the function can
abort before the `fetch` call is missing credentials (executor.ts lines
14-16).  The body transform sits in a `try { ... } catch` that logs and
falls through, and `parseFloat`/`parseInt` never throw, so no transform
error path exists. -/
inductive ExecErr
  | configurationError
deriving DecidableEq, Repr

/-- The outbound request `executeChange` hands to `fetch`
(executor.ts lines 90-97), restricted to the parts the claims are about. -/
structure OutboundRequest where
  method : String
  isJournalPath : Bool
  body : Option JPayload
deriving DecidableEq, Repr

/-- `executeChange` up to the network call (executor.ts lines 5-97): fail
fast iff credentials are missing, transform a journal body, then make the
downstream request.  `.ok` means the network call is made. -/
def executeChangeModel (credentialsOk : Bool) (method : String)
    (pathHasJournals : Bool) (body : Option JPayload) :
    Except ExecErr OutboundRequest :=
  if ¬ credentialsOk then .error .configurationError
  else
    let requestBody :=
      match body with
      | some p => if pathHasJournals then some (transformJournalBody p) else some p
      | none => none
    .ok ⟨method, pathHasJournals, requestBody⟩

/-! ## Request signing (src/utils/auth.ts)

`Date` is modelled as a broken-down UTC instant; `Date.prototype.toISOString`
always emits `YYYY-MM-DDTHH:mm:ss.mmmZ` with exactly three millisecond
digits, built here by digit extraction.  The HMAC-SHA384/base64 primitive of
node:crypto is an abstract parameter `hmacSha384Base64 key payload`. -/

/-- The credential record (src/types, used by auth.ts and executor.ts). -/
structure ApiCredentials where
  apiKeyId : String
  apiKeyPublic : String
  apiKeyPassword : String
  baseUrl : String
deriving DecidableEq, Repr

/-- A broken-down UTC instant, the observable content of `new Date()`. -/
structure DateTimeUTC where
  year : Nat
  month : Nat
  day : Nat
  hour : Nat
  minute : Nat
  second : Nat
  millis : Nat
deriving DecidableEq, Repr

/-- The character of a decimal digit (`n` taken mod 10). -/
def digitChar (n : Nat) : Char := Char.ofNat (48 + n % 10)

/-- Two-digit zero-padded field of `toISOString`. -/
def twoDigits (n : Nat) : List Char := [digitChar (n / 10), digitChar n]

/-- Three-digit zero-padded milliseconds field of `toISOString`. -/
def threeDigits (n : Nat) : List Char := [digitChar (n / 100), digitChar (n / 10), digitChar n]

/-- Four-digit zero-padded year field of `toISOString`. -/
def fourDigits (n : Nat) : List Char :=
  [digitChar (n / 1000), digitChar (n / 100), digitChar (n / 10), digitChar n]

/-- `YYYY-MM-DDTHH:mm:ss` — the ISO-8601 representation truncated to whole
seconds, with no timezone suffix. -/
def isoSecondsChars (dt : DateTimeUTC) : List Char :=
  fourDigits dt.year ++ '-' :: twoDigits dt.month ++ '-' :: twoDigits dt.day ++
    'T' :: twoDigits dt.hour ++ ':' :: twoDigits dt.minute ++ ':' :: twoDigits dt.second

/-- `Date.prototype.toISOString`: the seconds form followed by `.mmmZ`. -/
def toISOString (dt : DateTimeUTC) : String :=
  ⟨isoSecondsChars dt ++ '.' :: threeDigits dt.millis ++ ['Z']⟩

/-- Decimal-digit test on a character. -/
def isDigitChar (c : Char) : Bool := decide ('0' ≤ c) && decide (c ≤ '9')

/-- Does a reversed character list end (in original order) with a dot, three
digits and `Z` — the pattern of the regex `\.\d{3}Z$`? -/
def matchesMillisZ : List Char → Bool
  | z :: d1 :: d2 :: d3 :: dot :: _ =>
    z = 'Z' && isDigitChar d1 && isDigitChar d2 && isDigitChar d3 && dot = '.'
  | _ => false

/-- Models `.replace(/\.\d{3}Z$/, '')` (auth.ts line 28): when the string
ends in a dot, three digits and `Z`, those five characters are removed. -/
def stripMillisZ (s : String) : String :=
  if matchesMillisZ s.toList.reverse then ⟨(s.toList.reverse.drop 5).reverse⟩ else s

/-- `getUtcTimestamp` (auth.ts lines 26-29): `toISOString` with the
millisecond/timezone suffix stripped by the regex replace. -/
def getUtcTimestamp (dt : DateTimeUTC) : String := stripMillisZ (toISOString dt)

/-- Models `path.split('?')[0]` (auth.ts line 12): the path up to the first
query separator. -/
def pathBeforeQuery (path : String) : String :=
  ⟨path.toList.takeWhile (fun c => c ≠ '?')⟩

/-- `signRequest` (auth.ts lines 4-24): timestamp from `getUtcTimestamp`,
payload `apiKeyId:timestamp:pathWithoutQuery`, signature the base64
HMAC-SHA384 of the payload keyed by the password, and the two auth headers,
the key header being `apiKeyPublic:signature`. -/
def signRequest (method path : String) (c : ApiCredentials) (dt : DateTimeUTC)
    (hmacSha384Base64 : String → String → String) : List (String × String) :=
  let timestamp := getUtcTimestamp dt
  let pathToSign := pathBeforeQuery path
  let payload := c.apiKeyId ++ ":" ++ timestamp ++ ":" ++ pathToSign
  let signature := hmacSha384Base64 c.apiKeyPassword payload
  [("X-AUTH-QUERYTIME", timestamp),
   ("X-AUTH-KEY", c.apiKeyPublic ++ ":" ++ signature)]

/-! ## Capture middleware (src/middleware/capture.ts) -/

/-- `method.toUpperCase()`, modelled character-wise. -/
def toUpperString (s : String) : String := ⟨s.toList.map Char.toUpper⟩

/-- `WRITE_METHODS.includes(method.toUpperCase())` (capture.ts lines 7-11). -/
def isWriteOperation (method : String) : Bool :=
  ["POST", "PATCH", "PUT", "DELETE"].contains (toUpperString method)

/-- The inbound request as the middleware reads it; `body` is the
`JSON.stringify` of a truthy parsed body (`none` for a falsy one), and
`changesetHeader` is the raw `x-changeset-id` header. -/
structure CaptureReq where
  method : String
  path : String
  originalUrl : String
  headers : List (String × String)
  body : Option String
  query : List (String × String)
  changesetHeader : Option String
deriving DecidableEq, Repr

/-- The JSON the middleware answers with for a captured write
(capture.ts lines 58-65), plus the HTTP status code it uses. -/
structure CaptureResponse where
  statusCode : Nat
  changeId : String
  changesetId : String
  status : String
  reviewUrl : String
deriving DecidableEq, Repr

/-- Result of running the middleware: pass the request on (reads), or a
captured response with the evolved store and the number of downstream API
calls made on the way (capture.ts contains no `fetch`, so the code sets 0 on
every path). -/
inductive CaptureOutcome
  | next (s : Store)
  | captured (resp : CaptureResponse) (s : Store) (downstreamCalls : Nat)
deriving DecidableEq, Repr

/-- The `Change` record the middleware persists (capture.ts lines 36-54). -/
def capturedChange (req : CaptureReq) (changeId csId now : String) : Change :=
  { id := changeId
    changesetId := some csId
    method := req.method
    path := req.path
    originalUrl := req.originalUrl
    headers := req.headers
    body := req.body
    query := req.query
    status := .pending
    createdAt := now
    resolvedAt := none
    resolvedBy := none
    response := none
    error := none }

/-- The auto-created singleton changeset (capture.ts lines 77-86). -/
def autoChangeset (autoCsId now localeNow : String) : Changeset :=
  { id := autoCsId
    name := "Change " ++ localeNow
    description := some "Auto-created changeset for single change"
    status := .pending
    createdAt := now
    resolvedAt := none
    resolvedBy := none }

/-- `captureMiddleware` (capture.ts lines 13-100): non-writes pass through
untouched; for a write, a fresh change id is drawn, and when the
`x-changeset-id` header is falsy a fresh singleton changeset is created
first; the change is persisted and a 202 response with
`{changeId, changesetId, status: 'pending', reviewUrl}` is returned.  No
downstream call is made on any path. -/
def captureMiddleware (req : CaptureReq) (changeId autoCsId now localeNow : String)
    (s : Store) : CaptureOutcome :=
  if ¬ isWriteOperation req.method then .next s
  else
    match (if jsTruthy req.changesetHeader then req.changesetHeader else none) with
    | none =>
      let s1 := createChangeset (autoChangeset autoCsId now localeNow) s
      let s2 := createPendingChange (capturedChange req changeId autoCsId now) s1
      .captured ⟨202, changeId, autoCsId, "pending", "/review/" ++ changeId⟩ s2 0
    | some csId =>
      let s2 := createPendingChange (capturedChange req changeId csId now) s
      .captured ⟨202, changeId, csId, "pending", "/review/" ++ changeId⟩ s2 0

/-! ## Interleaving model of two concurrent single-change approvals

`POST /changes/:id/approve` (api.ts lines 35-60) performs, in order:
a read (`getPendingChangeById`) whose result is also the status check, the
downstream execution, and an unconditional status write
(`updatePendingChangeStatus`, `WHERE id = ?` with no status condition).
Each database access and the downstream call is one atomic micro-step; the
await points between them are the suspension points at which another request
handler can be scheduled.  Two tasks, A and B, run the same approval for the
same change id; a schedule is the order of their micro-steps. -/

/-- Program counter of one approval task: it has not read yet, or it has
read and remembered what it saw, or it is finished. -/
inductive TaskPhase
  | start
  | readDone (seen : Option Change)
  | finished
deriving DecidableEq, Repr

/-- Shared store, both tasks, and the count of downstream executions. -/
structure RaceState where
  store : Store
  taskA : TaskPhase
  taskB : TaskPhase
  execCount : Nat
deriving DecidableEq, Repr

/-- Scheduler choice: which task runs its next micro-step. -/
inductive Sched
  | a
  | b
deriving DecidableEq, Repr

/-- One micro-step of an approval task on the shared store.  In `start` it
reads the change; in `readDone` it acts on what it saw: if the snapshot was
pending, it executes downstream (counting the call) and unconditionally
writes the terminal status, otherwise it answers 404/409 and stops. -/
def taskStep (exec : Change → Except String String) (id resolvedBy now : String)
    (ph : TaskPhase) (store : Store) (cnt : Nat) : TaskPhase × Store × Nat :=
  match ph with
  | .start => (.readDone (getPendingChangeById id store), store, cnt)
  | .readDone seen =>
    match seen with
    | some c =>
      if c.status = .pending then
        match exec c with
        | .ok r =>
          (.finished,
           updatePendingChangeStatus c.id .approved resolvedBy (some r) none now store,
           cnt + 1)
        | .error e =>
          (.finished,
           updatePendingChangeStatus id .rejected resolvedBy none (some e) now store,
           cnt + 1)
      else (.finished, store, cnt)
    | none => (.finished, store, cnt)
  | .finished => (.finished, store, cnt)

/-- Run one scheduled micro-step of the chosen task. -/
def raceStep (exec : Change → Except String String) (id resolvedBy now : String)
    (st : RaceState) : Sched → RaceState
  | .a =>
    let (ph, store, cnt) := taskStep exec id resolvedBy now st.taskA st.store st.execCount
    { st with taskA := ph, store := store, execCount := cnt }
  | .b =>
    let (ph, store, cnt) := taskStep exec id resolvedBy now st.taskB st.store st.execCount
    { st with taskB := ph, store := store, execCount := cnt }

/-- Run a whole schedule from an initial store. -/
def runRace (exec : Change → Except String String) (id resolvedBy now : String)
    (s : Store) (schedule : List Sched) : RaceState :=
  schedule.foldl (raceStep exec id resolvedBy now) ⟨s, .start, .start, 0⟩

/-! ## Derived predicates used in theorem statements -/

/-- Boolean test `change.status === 'pending'`. -/
def isPendingB (c : Change) : Bool := c.status = .pending

/-- Did the executor oracle fail on this change? -/
def isErrB : Except String String → Bool
  | .ok _ => false
  | .error _ => true

/-- Terminal status the approval loop records for a pending member:
approved on executor success, rejected on executor failure. -/
def execStatus (exec : Change → Except String String) (c : Change) : Status :=
  match exec c with
  | .ok _ => .approved
  | .error _ => .rejected

/-- Response stored for a pending member (only on success). -/
def execResponse (exec : Change → Except String String) (c : Change) : Option String :=
  match exec c with
  | .ok r => some r
  | .error _ => none

/-- Error stored for a pending member (only on failure). -/
def execError (exec : Change → Except String String) (c : Change) : Option String :=
  match exec c with
  | .ok _ => none
  | .error e => some e

/-! ## Store lookup lemmas -/

theorem updChange_id (st : Status) (rb : String) (r e : Option String) (now : String)
    (c : Change) : (updChange st rb r e now c).id = c.id := rfl

theorem updatePendingChangeStatus_changesets (id : String) (st : Status) (rb : String)
    (r e : Option String) (now : String) (s : Store) :
    (updatePendingChangeStatus id st rb r e now s).changesets = s.changesets := rfl

theorem updateChangesetStatus_changes (id : String) (st : Status) (rb now : String)
    (s : Store) : (updateChangesetStatus id st rb now s).changes = s.changes := rfl

theorem getPendingChangeById_update (j id : String) (st : Status) (rb : String)
    (r e : Option String) (now : String) (s : Store) :
    getPendingChangeById j (updatePendingChangeStatus id st rb r e now s) =
      (getPendingChangeById j s).map
        (fun c => if c.id = id then updChange st rb r e now c else c) := by
  unfold getPendingChangeById updatePendingChangeStatus
  rw [List.find?_map]
  have hfun : ((fun c => decide (c.id = j)) ∘
      fun c => if c.id = id then updChange st rb r e now c else c) =
      (fun c : Change => decide (c.id = j)) := by
    funext c
    by_cases h : c.id = id <;> simp [h, updChange]
  rw [hfun]

theorem getPendingChangeById_update_other {j id : String} (hne : j ≠ id)
    (st : Status) (rb : String) (r e : Option String) (now : String) (s : Store) :
    getPendingChangeById j (updatePendingChangeStatus id st rb r e now s) =
      getPendingChangeById j s := by
  rw [getPendingChangeById_update]
  cases hfind : getPendingChangeById j s with
  | none => rfl
  | some c =>
    have hcj : c.id = j := by simpa using List.find?_some hfind
    simp [hcj, hne]

theorem getPendingChangeById_update_self {id : String} {s : Store} {c : Change}
    (hfind : getPendingChangeById id s = some c)
    (st : Status) (rb : String) (r e : Option String) (now : String) :
    getPendingChangeById id (updatePendingChangeStatus id st rb r e now s) =
      some (updChange st rb r e now c) := by
  rw [getPendingChangeById_update, hfind]
  have hcj : c.id = id := by simpa using List.find?_some hfind
  simp [hcj]

theorem findChangeset_update (j id : String) (st : Status) (rb now : String) (s : Store) :
    findChangeset j (updateChangesetStatus id st rb now s) =
      (findChangeset j s).map
        (fun cs => if cs.id = id then
          { cs with status := st, resolvedAt := some now, resolvedBy := some rb }
         else cs) := by
  unfold findChangeset updateChangesetStatus
  rw [List.find?_map]
  have hfun : ((fun cs => decide (cs.id = j)) ∘
      fun cs => if cs.id = id then
        { cs with status := st, resolvedAt := some now, resolvedBy := some rb }
      else cs) = (fun cs : Changeset => decide (cs.id = j)) := by
    funext cs
    by_cases h : cs.id = id <;> simp [h]
  rw [hfun]

theorem find?_id_of_mem_nodup {l : List Change}
    (hnd : (l.map (fun c => c.id)).Nodup) {c : Change} (hc : c ∈ l) :
    l.find? (fun x => x.id = c.id) = some c := by
  induction l with
  | nil => cases hc
  | cons x rest ih =>
    rw [List.map_cons, List.nodup_cons] at hnd
    obtain ⟨hx, hndr⟩ := hnd
    rcases List.mem_cons.mp hc with h | h
    · subst h
      simp [List.find?_cons]
    · have hne : x.id ≠ c.id := by
        intro hid
        exact hx (hid ▸ List.mem_map_of_mem (fun y => y.id) h)
      rw [List.find?_cons]
      simp only [hne, decide_eq_true_eq]
      simp only [decide_eq_false_iff_not] at *
      simp [hne, ih hndr h]

theorem lookup_self_of_nodup {s : Store}
    (hnd : (s.changes.map (fun c => c.id)).Nodup) {c : Change} (hc : c ∈ s.changes) :
    getPendingChangeById c.id s = some c :=
  find?_id_of_mem_nodup hnd hc

/-! ## Characterization of the changeset approval loop -/

theorem approveLoop_spec (exec : Change → Except String String) (rb now : String)
    (l : List Change) (s : Store)
    (hnd : (l.map (fun c => c.id)).Nodup)
    (hin : ∀ c ∈ l, getPendingChangeById c.id s = some c) :
    (approveLoop exec rb now l s).store.changesets = s.changesets ∧
    (approveLoop exec rb now l s).hasErrors =
      l.any (fun c => isPendingB c && isErrB (exec c)) ∧
    (approveLoop exec rb now l s).execLog = (l.filter isPendingB).map (fun c => c.id) ∧
    (∀ c ∈ l, c.status = .pending →
      getPendingChangeById c.id (approveLoop exec rb now l s).store =
        some (updChange (execStatus exec c) rb (execResponse exec c) (execError exec c) now c)) ∧
    (∀ j : String, j ∉ (l.filter isPendingB).map (fun c => c.id) →
      getPendingChangeById j (approveLoop exec rb now l s).store =
        getPendingChangeById j s) := by
  induction l generalizing s with
  | nil => simp [approveLoop]
  | cons c rest ih =>
    rw [List.map_cons, List.nodup_cons] at hnd
    obtain ⟨hcid, hndr⟩ := hnd
    by_cases hst : c.status = .pending
    · have hcond : ¬ (c.status ≠ Status.pending) := by simp [hst]
      rcases hex : exec c with e | r
      · -- executor failure: the member is marked rejected with the error
        have hupd : approveLoop exec rb now (c :: rest) s =
            (let s1 := updatePendingChangeStatus c.id .rejected rb none (some e) now s
             let out := approveLoop exec rb now rest s1
             ⟨out.store, ⟨c.id, false, some e⟩ :: out.results, true, c.id :: out.execLog⟩) := by
          simp only [approveLoop, if_neg hcond, hex]
        set s1 := updatePendingChangeStatus c.id .rejected rb none (some e) now s with hs1
        have hin1 : ∀ x ∈ rest, getPendingChangeById x.id s1 = some x := by
          intro x hx
          have hne : x.id ≠ c.id := by
            intro h
            exact hcid (h ▸ List.mem_map_of_mem (fun y => y.id) hx)
          rw [hs1, getPendingChangeById_update_other hne]
          exact hin x (List.mem_cons_of_mem _ hx)
        obtain ⟨ihc, ihe, ihl, ihm, ihu⟩ := ih s1 hndr hin1
        have hpendB : isPendingB c = true := by simp [isPendingB, hst]
        have herrB : isErrB (exec c) = true := by simp [isErrB, hex]
        refine ⟨?_, ?_, ?_, ?_, ?_⟩
        · rw [hupd]
          simpa [s1, updatePendingChangeStatus] using ihc
        · rw [hupd]
          simp [List.any_cons, hpendB, herrB]
        · rw [hupd]
          simp [List.filter_cons, hpendB, ihl]
        · intro x hx hpx
          rcases List.mem_cons.mp hx with h | h
          · subst h
            have hnot : x.id ∉ (rest.filter isPendingB).map (fun y => y.id) := by
              intro hmem
              apply hcid
              rcases List.mem_map.mp hmem with ⟨y, hy, hyid⟩
              exact hyid ▸ List.mem_map_of_mem (fun z => z.id) (List.mem_of_mem_filter hy)
            rw [hupd]
            simp only []
            rw [ihu x.id hnot, hs1,
              getPendingChangeById_update_self (hin x (List.mem_cons_self x rest))]
            simp [execStatus, execResponse, execError, hex]
          · rw [hupd]
            exact ihm x h hpx
        · intro j hj
          rw [List.filter_cons, if_pos hpendB, List.map_cons, List.mem_cons] at hj
          push_neg at hj
          obtain ⟨hj1, hj2⟩ := hj
          rw [hupd]
          simp only []
          rw [ihu j hj2, hs1, getPendingChangeById_update_other hj1]
      · -- executor success: the member is marked approved with the response
        have hupd : approveLoop exec rb now (c :: rest) s =
            (let s1 := updatePendingChangeStatus c.id .approved rb (some r) none now s
             let out := approveLoop exec rb now rest s1
             ⟨out.store, ⟨c.id, true, none⟩ :: out.results, out.hasErrors, c.id :: out.execLog⟩) := by
          simp only [approveLoop, if_neg hcond, hex]
        set s1 := updatePendingChangeStatus c.id .approved rb (some r) none now s with hs1
        have hin1 : ∀ x ∈ rest, getPendingChangeById x.id s1 = some x := by
          intro x hx
          have hne : x.id ≠ c.id := by
            intro h
            exact hcid (h ▸ List.mem_map_of_mem (fun y => y.id) hx)
          rw [hs1, getPendingChangeById_update_other hne]
          exact hin x (List.mem_cons_of_mem _ hx)
        obtain ⟨ihc, ihe, ihl, ihm, ihu⟩ := ih s1 hndr hin1
        have hpendB : isPendingB c = true := by simp [isPendingB, hst]
        have herrB : isErrB (exec c) = false := by simp [isErrB, hex]
        refine ⟨?_, ?_, ?_, ?_, ?_⟩
        · rw [hupd]
          simpa [s1, updatePendingChangeStatus] using ihc
        · rw [hupd]
          simp [List.any_cons, hpendB, herrB, ihe]
        · rw [hupd]
          simp [List.filter_cons, hpendB, ihl]
        · intro x hx hpx
          rcases List.mem_cons.mp hx with h | h
          · subst h
            have hnot : x.id ∉ (rest.filter isPendingB).map (fun y => y.id) := by
              intro hmem
              apply hcid
              rcases List.mem_map.mp hmem with ⟨y, hy, hyid⟩
              exact hyid ▸ List.mem_map_of_mem (fun z => z.id) (List.mem_of_mem_filter hy)
            rw [hupd]
            simp only []
            rw [ihu x.id hnot, hs1,
              getPendingChangeById_update_self (hin x (List.mem_cons_self x rest))]
            simp [execStatus, execResponse, execError, hex]
          · rw [hupd]
            exact ihm x h hpx
        · intro j hj
          rw [List.filter_cons, if_pos hpendB, List.map_cons, List.mem_cons] at hj
          push_neg at hj
          obtain ⟨hj1, hj2⟩ := hj
          rw [hupd]
          simp only []
          rw [ihu j hj2, hs1, getPendingChangeById_update_other hj1]
    · -- non-pending member: skipped entirely
      have hupd : approveLoop exec rb now (c :: rest) s = approveLoop exec rb now rest s := by
        simp only [approveLoop, if_pos hst]
      have hin1 : ∀ x ∈ rest, getPendingChangeById x.id s = some x := fun x hx =>
        hin x (List.mem_cons_of_mem _ hx)
      obtain ⟨ihc, ihe, ihl, ihm, ihu⟩ := ih s hndr hin1
      have hpendB : isPendingB c = false := by simp [isPendingB, hst]
      refine ⟨?_, ?_, ?_, ?_, ?_⟩
      · rw [hupd]; exact ihc
      · rw [hupd]; simp [List.any_cons, hpendB, ihe]
      · rw [hupd]; simp [List.filter_cons, hpendB, ihl]
      · intro x hx hpx
        rcases List.mem_cons.mp hx with h | h
        · exact absurd (h ▸ hpx) hst
        · rw [hupd]; exact ihm x h hpx
      · intro j hj
        rw [List.filter_cons, if_neg (by simp [hpendB])] at hj
        rw [hupd]
        exact ihu j hj

theorem getPendingChangeById_updateCs (j id : String) (st : Status) (rb now : String)
    (s : Store) :
    getPendingChangeById j (updateChangesetStatus id st rb now s) =
      getPendingChangeById j s := rfl

theorem findChangeset_congr {s t : Store} (h : t.changesets = s.changesets) (j : String) :
    findChangeset j t = findChangeset j s := by
  unfold findChangeset
  rw [h]

theorem membersOf_nodup {s : Store} (hnd : (s.changes.map (fun c => c.id)).Nodup)
    (csId : String) : ((membersOf csId s).map (fun c => c.id)).Nodup :=
  List.Nodup.sublist (List.Sublist.map (fun c => c.id) (List.filter_sublist s.changes)) hnd

theorem membersOf_mem {s : Store} {csId : String} {c : Change}
    (h : c ∈ membersOf csId s) : c ∈ s.changes :=
  List.mem_of_mem_filter h

/-- C1: changeset-level approval resolves each still-pending member in order,
marking executor successes approved (response stored) and executor failures
rejected (error stored); afterwards the changeset is approved exactly when no
member execution failed, and rejected otherwise; exactly the pending members
were executed downstream, and non-pending members are untouched. -/
theorem changeset_approval_partial_failure
    (exec : Change → Except String String) (csId rb now : String) (s : Store)
    (cs : Changeset)
    (hcs : findChangeset csId s = some cs)
    (hpending : cs.status = .pending)
    (hnd : (s.changes.map (fun c => c.id)).Nodup) :
    ∃ out : LoopOut,
      approveChangeset exec csId rb now s = .ok out ∧
      out.hasErrors = (membersOf csId s).any (fun c => isPendingB c && isErrB (exec c)) ∧
      findChangeset csId out.store =
        some { cs with
               status := if out.hasErrors then Status.rejected else Status.approved,
               resolvedAt := some now, resolvedBy := some rb } ∧
      out.execLog = ((membersOf csId s).filter isPendingB).map (fun c => c.id) ∧
      (∀ c ∈ membersOf csId s, c.status = .pending →
        getPendingChangeById c.id out.store =
          some (updChange (execStatus exec c) rb (execResponse exec c) (execError exec c) now c)) ∧
      (∀ c ∈ membersOf csId s, c.status ≠ .pending →
        getPendingChangeById c.id out.store = getPendingChangeById c.id s) := by
  have hcsid : cs.id = csId := by simpa using List.find?_some hcs
  have hndm := membersOf_nodup hnd csId
  have hin : ∀ c ∈ membersOf csId s, getPendingChangeById c.id s = some c := fun c hc =>
    lookup_self_of_nodup hnd (membersOf_mem hc)
  obtain ⟨ihc, ihe, ihl, ihm, ihu⟩ := approveLoop_spec exec rb now (membersOf csId s) s hndm hin
  have hcond : ¬ (cs.status ≠ Status.pending) := by simp [hpending]
  set lo := approveLoop exec rb now (membersOf csId s) s with hlo
  set final : Status := if lo.hasErrors then .rejected else .approved with hfinal
  have happ : approveChangeset exec csId rb now s =
      .ok { lo with store := updateChangesetStatus csId final rb now lo.store } := by
    unfold approveChangeset
    rw [hcs]
    simp only [if_neg hcond]
  refine ⟨_, happ, ?_, ?_, ?_, ?_, ?_⟩
  · exact ihe
  · rw [findChangeset_update, findChangeset_congr ihc, hcs]
    simp [hcsid, hfinal]
  · exact ihl
  · intro c hc hp
    rw [getPendingChangeById_updateCs]
    exact ihm c hc hp
  · intro c hc hp
    rw [getPendingChangeById_updateCs]
    apply ihu
    intro hmem
    rcases List.mem_map.mp hmem with ⟨y, hy, hyid⟩
    have hyin : y ∈ s.changes := membersOf_mem (List.mem_of_mem_filter hy)
    have hyc : y = c :=
      List.inj_on_of_nodup_map hnd hyin (membersOf_mem hc) hyid
    have : y.status = .pending := by
      have := List.of_mem_filter hy
      simpa [isPendingB] using this
    exact hp (hyc ▸ this)

/-- Each member of the approval loop being skipped: a list with no pending
member leaves the store untouched and produces no result, no error flag and
no downstream execution. -/
theorem approveLoop_all_skipped (exec : Change → Except String String) (rb now : String)
    (l : List Change) (s : Store) (h : ∀ c ∈ l, c.status ≠ .pending) :
    approveLoop exec rb now l s = ⟨s, [], false, []⟩ := by
  induction l with
  | nil => rfl
  | cons c rest ih =>
    have hc := h c (List.mem_cons_self c rest)
    simp only [approveLoop, if_pos hc]
    exact ih (fun x hx => h x (List.mem_cons_of_mem _ hx))

/-- C10: approving a pending changeset whose members are all non-pending
(including the zero-member case) performs no executor call and no per-change
update, and always marks the changeset approved. -/
theorem changeset_approve_no_pending_members
    (exec : Change → Except String String) (csId rb now : String) (s : Store)
    (cs : Changeset)
    (hcs : findChangeset csId s = some cs)
    (hpending : cs.status = .pending)
    (hmem : ∀ c ∈ membersOf csId s, c.status ≠ .pending) :
    approveChangeset exec csId rb now s =
      .ok ⟨updateChangesetStatus csId .approved rb now s, [], false, []⟩ ∧
    (updateChangesetStatus csId .approved rb now s).changes = s.changes ∧
    findChangeset csId (updateChangesetStatus csId .approved rb now s) =
      some { cs with status := Status.approved, resolvedAt := some now,
                     resolvedBy := some rb } := by
  have hcsid : cs.id = csId := by simpa using List.find?_some hcs
  have hcond : ¬ (cs.status ≠ Status.pending) := by simp [hpending]
  have hskip := approveLoop_all_skipped exec rb now (membersOf csId s) s hmem
  refine ⟨?_, rfl, ?_⟩
  · unfold approveChangeset
    rw [hcs]
    simp only [if_neg hcond, hskip]
    rfl
  · rw [findChangeset_update, hcs]
    simp [hcsid]

/-! ## Concrete scenario for the three-member changeset approval -/

/-- A pending member of changeset `csW`. -/
def wChange (id created : String) : Change :=
  { id := id, changesetId := some "csW", method := "POST",
    path := "/proxy/v1/journals", originalUrl := "/proxy/v1/journals",
    headers := [], body := some "null", query := [], status := .pending,
    createdAt := created, resolvedAt := none, resolvedBy := none,
    response := none, error := none }

/-- The pending changeset `csW`. -/
def wCs : Changeset :=
  { id := "csW", name := "batch", description := none, status := .pending,
    createdAt := "t0", resolvedAt := none, resolvedBy := none }

/-- Store with changeset `csW` owning three pending members. -/
def wStore : Store :=
  ⟨[wCs], [wChange "w1" "t1", wChange "w2" "t2", wChange "w3" "t3"]⟩

/-- Executor oracle that fails exactly on the second member. -/
def wExec : Change → Except String String :=
  fun c => if c.id = "w2" then .error "boom" else .ok "resp"

theorem changeset_approval_partial_failure_witness :
    findChangeset "csW" wStore = some wCs ∧
    wCs.status = Status.pending ∧
    (wStore.changes.map (fun c => c.id)).Nodup ∧
    ∃ out : LoopOut,
      approveChangeset wExec "csW" "rb" "t9" wStore = .ok out ∧
      out.hasErrors = true ∧
      findChangeset "csW" out.store =
        some { wCs with status := Status.rejected, resolvedAt := some "t9",
                        resolvedBy := some "rb" } ∧
      getPendingChangeById "w1" out.store =
        some (updChange .approved "rb" (some "resp") none "t9" (wChange "w1" "t1")) ∧
      getPendingChangeById "w2" out.store =
        some (updChange .rejected "rb" none (some "boom") "t9" (wChange "w2" "t2")) ∧
      getPendingChangeById "w3" out.store =
        some (updChange .approved "rb" (some "resp") none "t9" (wChange "w3" "t3")) ∧
      out.execLog = ["w1", "w2", "w3"] := by
  refine ⟨rfl, rfl, by decide, ?_⟩
  obtain ⟨out, happ, he, hcs, hlog, hm, _⟩ :=
    changeset_approval_partial_failure wExec "csW" "rb" "t9" wStore wCs rfl rfl (by decide)
  have he2 : out.hasErrors = true := by rw [he]; rfl
  rw [he2] at hcs
  have h1 := hm (wChange "w1" "t1") (by decide) rfl
  have h2 := hm (wChange "w2" "t2") (by decide) rfl
  have h3 := hm (wChange "w3" "t3") (by decide) rfl
  refine ⟨out, happ, he2, by simpa using hcs, ?_, ?_, ?_, by rw [hlog]; rfl⟩
  · simpa [execStatus, execResponse, execError, wExec, wChange] using h1
  · simpa [execStatus, execResponse, execError, wExec, wChange] using h2
  · simpa [execStatus, execResponse, execError, wExec, wChange] using h3

/-! ## Concrete scenario for a changeset with only resolved members -/

/-- A member of `csX` that was already individually rejected. -/
def xChange (id : String) : Change :=
  { id := id, changesetId := some "csX", method := "POST",
    path := "/proxy/v1/journals", originalUrl := "/proxy/v1/journals",
    headers := [], body := some "null", query := [], status := .rejected,
    createdAt := "t1", resolvedAt := some "t2", resolvedBy := some "human",
    response := none, error := some "no" }

/-- The pending changeset `csX`. -/
def xCs : Changeset :=
  { id := "csX", name := "stale", description := none, status := .pending,
    createdAt := "t0", resolvedAt := none, resolvedBy := none }

/-- Store where every member of pending changeset `csX` is already rejected. -/
def xStore : Store := ⟨[xCs], [xChange "x1", xChange "x2"]⟩

theorem changeset_approve_no_pending_members_witness :
    findChangeset "csX" xStore = some xCs ∧
    xCs.status = Status.pending ∧
    (∀ c ∈ membersOf "csX" xStore, c.status ≠ .pending) ∧
    (approveChangeset wExec "csX" "rb" "t9" xStore =
      .ok ⟨updateChangesetStatus "csX" .approved "rb" "t9" xStore, [], false, []⟩ ∧
    (updateChangesetStatus "csX" .approved "rb" "t9" xStore).changes = xStore.changes ∧
    findChangeset "csX" (updateChangesetStatus "csX" .approved "rb" "t9" xStore) =
      some { xCs with status := Status.approved, resolvedAt := some "t9",
                      resolvedBy := some "rb" }) :=
  ⟨rfl, rfl, by decide,
   changeset_approve_no_pending_members wExec "csX" "rb" "t9" xStore xCs rfl rfl (by decide)⟩

/-! ## Status monotonicity of the single-change routes -/

/-- One legal observable transition of a stored change: the record is
untouched, or a pending record becomes approved or rejected. -/
def statusStepOk (c c' : Change) : Prop :=
  c' = c ∨ (c.status = .pending ∧ (c'.status = .approved ∨ c'.status = .rejected))

theorem forall₂_statusStep_update (s : Store)
    (hnd : (s.changes.map (fun x => x.id)).Nodup)
    {id : String} {c0 : Change}
    (hfind : getPendingChangeById id s = some c0)
    (hp : c0.status = .pending)
    {st : Status} (hst : st = .approved ∨ st = .rejected)
    (rb : String) (r e : Option String) (now : String) :
    List.Forall₂ statusStepOk s.changes
      (updatePendingChangeStatus id st rb r e now s).changes := by
  have hc0id : c0.id = id := by simpa using List.find?_some hfind
  have hc0mem : c0 ∈ s.changes := List.mem_of_find?_eq_some hfind
  unfold updatePendingChangeStatus
  simp only []
  rw [List.forall₂_map_right_iff]
  rw [List.forall₂_same]
  intro x hx
  by_cases h : x.id = id
  · have hx0 : x = c0 := List.inj_on_of_nodup_map hnd hx hc0mem (h.trans hc0id.symm)
    right
    refine ⟨hx0 ▸ hp, ?_⟩
    simp only [if_pos h, updChange]
    rcases hst with h' | h' <;> simp [h']
  · left
    simp [if_neg h]

/-- C2: approving or rejecting a change whose status is already terminal
returns a conflict and leaves the store (hence every field of the change)
untouched; consequently both single-change routes only ever leave a record
unchanged or move it from pending to a terminal status. -/
theorem change_terminal_frozen
    (exec : Change → Except String String) (id rb now : String) (reason : Option String)
    (s : Store) (c : Change)
    (hc : getPendingChangeById id s = some c)
    (ht : c.status ≠ .pending) :
    approveChange exec id rb now s = (.conflict c.status, s) ∧
    rejectChange id rb reason now s = (.conflict c.status, s) ∧
    (∀ (exec' : Change → Except String String) (id' rb' now' : String) (s1 : Store),
      (s1.changes.map (fun x => x.id)).Nodup →
      List.Forall₂ statusStepOk s1.changes
        ((approveChange exec' id' rb' now' s1).2).changes) ∧
    (∀ (id' rb' : String) (reason' : Option String) (now' : String) (s1 : Store),
      (s1.changes.map (fun x => x.id)).Nodup →
      List.Forall₂ statusStepOk s1.changes
        ((rejectChange id' rb' reason' now' s1).2).changes) := by
  have hsame : ∀ s1 : Store, List.Forall₂ statusStepOk s1.changes s1.changes := by
    intro s1
    rw [List.forall₂_same]
    intro x _
    exact Or.inl rfl
  refine ⟨?_, ?_, ?_, ?_⟩
  · unfold approveChange
    rw [hc]
    simp only [if_pos ht]
  · unfold rejectChange
    rw [hc]
    simp only [if_pos ht]
  · intro exec' id' rb' now' s1 hnd
    unfold approveChange
    cases hfind : getPendingChangeById id' s1 with
    | none => exact hsame s1
    | some c0 =>
      by_cases hp : c0.status = .pending
      · have hc0id : c0.id = id' := by simpa using List.find?_some hfind
        simp only [if_neg (show ¬ (c0.status ≠ Status.pending) by simp [hp])]
        cases hex : exec' c0 with
        | ok r =>
          exact forall₂_statusStep_update s1 hnd (hc0id ▸ hfind) hp (Or.inl rfl) _ _ _ _
        | error e =>
          exact forall₂_statusStep_update s1 hnd hfind hp (Or.inr rfl) _ _ _ _
      · simp only [if_pos hp]
        exact hsame s1
  · intro id' rb' reason' now' s1 hnd
    unfold rejectChange
    cases hfind : getPendingChangeById id' s1 with
    | none => exact hsame s1
    | some c0 =>
      by_cases hp : c0.status = .pending
      · have hc0id : c0.id = id' := by simpa using List.find?_some hfind
        simp only [if_neg (show ¬ (c0.status ≠ Status.pending) by simp [hp])]
        exact forall₂_statusStep_update s1 hnd (hc0id ▸ hfind) hp (Or.inr rfl) _ _ _ _
      · simp only [if_pos hp]
        exact hsame s1

/-- An already-approved change used in the conflict scenario. -/
def dChange : Change :=
  { id := "d1", changesetId := some "csD", method := "POST",
    path := "/proxy/v1/journals", originalUrl := "/proxy/v1/journals",
    headers := [], body := none, query := [], status := .approved,
    createdAt := "t1", resolvedAt := some "t2", resolvedBy := some "human",
    response := some "resp", error := none }

/-- Store holding only the already-approved change. -/
def dStore : Store := ⟨[], [dChange]⟩

theorem change_terminal_frozen_witness :
    getPendingChangeById "d1" dStore = some dChange ∧
    dChange.status ≠ Status.pending ∧
    approveChange wExec "d1" "rb" "t9" dStore = (.conflict dChange.status, dStore) ∧
    rejectChange "d1" "rb" none "t9" dStore = (.conflict dChange.status, dStore) ∧
    List.Forall₂ statusStepOk dStore.changes
      ((approveChange wExec "d1" "rb" "t9" dStore).2).changes :=
  have h := change_terminal_frozen wExec "d1" "rb" "t9" none dStore dChange rfl (by decide)
  ⟨rfl, by decide, h.1, h.2.1, h.2.2.1 wExec "d1" "rb" "t9" dStore (by decide)⟩

/-! ## Mutation of a terminal change by the add-changes-to-changeset route -/

/-- A change that has already been rejected, owned by changeset `csA`. -/
def mChange : Change :=
  { id := "m1", changesetId := some "csA", method := "POST",
    path := "/proxy/v1/journals", originalUrl := "/proxy/v1/journals",
    headers := [], body := none, query := [], status := .rejected,
    createdAt := "t1", resolvedAt := some "t2", resolvedBy := some "human",
    response := none, error := some "no" }

/-- Its original (resolved) changeset. -/
def mCsA : Changeset :=
  { id := "csA", name := "old", description := none, status := .rejected,
    createdAt := "t0", resolvedAt := some "t2", resolvedBy := some "human" }

/-- A pending changeset the change can be moved into. -/
def mCsB : Changeset :=
  { id := "csB", name := "new", description := none, status := .pending,
    createdAt := "t3", resolvedAt := none, resolvedBy := none }

/-- Store with the rejected change and both changesets. -/
def mStore : Store := ⟨[mCsA, mCsB], [mChange]⟩

theorem terminal_change_mutated_by_move :
    mChange.status = Status.rejected ∧
    mChange.changesetId = some "csA" ∧
    addChangesToChangeset ["m1"] "csB" mStore =
      .ok (moveChangesToChangeset ["m1"] "csB" mStore) ∧
    getPendingChangeById "m1" (moveChangesToChangeset ["m1"] "csB" mStore) =
      some { mChange with changesetId := some "csB" } := by
  refine ⟨rfl, rfl, ?_, ?_⟩ <;> rfl

/-- C9 amended: besides the coordinator's status updates and explicit
deletes, the add-changes-to-changeset route mutates persisted changes — it
reassigns `changesetId` regardless of the change's own (possibly terminal)
status, provided only that the target changeset is pending; every other
field of every change, and every changeset, is left untouched by the move. -/
theorem move_reassigns_changesetId_only
    (changeIds : List String) (csId : String) (s : Store) (cs : Changeset)
    (hne : changeIds.isEmpty = false)
    (hcs : findChangeset csId s = some cs)
    (hp : cs.status = .pending) :
    addChangesToChangeset changeIds csId s = .ok (moveChangesToChangeset changeIds csId s) ∧
    List.Forall₂
      (fun c c' =>
        c'.changesetId = (if c.id ∈ changeIds then some csId else c.changesetId) ∧
        c'.id = c.id ∧ c'.method = c.method ∧ c'.path = c.path ∧
        c'.originalUrl = c.originalUrl ∧ c'.headers = c.headers ∧ c'.body = c.body ∧
        c'.query = c.query ∧ c'.status = c.status ∧ c'.createdAt = c.createdAt ∧
        c'.resolvedAt = c.resolvedAt ∧ c'.resolvedBy = c.resolvedBy ∧
        c'.response = c.response ∧ c'.error = c.error)
      s.changes (moveChangesToChangeset changeIds csId s).changes ∧
    (moveChangesToChangeset changeIds csId s).changesets = s.changesets := by
  refine ⟨?_, ?_, rfl⟩
  · unfold addChangesToChangeset
    rw [hne]
    rw [hcs]
    simp only [if_neg (show ¬ (cs.status ≠ Status.pending) by simp [hp]), Bool.false_eq_true,
      if_false]
  · unfold moveChangesToChangeset
    simp only []
    rw [List.forall₂_map_right_iff, List.forall₂_same]
    intro x _
    by_cases h : x.id ∈ changeIds <;> simp [h]

theorem move_reassigns_changesetId_only_witness :
    (["m1"] : List String).isEmpty = false ∧
    findChangeset "csB" mStore = some mCsB ∧
    mCsB.status = Status.pending ∧
    (addChangesToChangeset ["m1"] "csB" mStore =
       .ok (moveChangesToChangeset ["m1"] "csB" mStore) ∧
     List.Forall₂
       (fun c c' =>
         c'.changesetId = (if c.id ∈ (["m1"] : List String) then some "csB" else c.changesetId) ∧
         c'.id = c.id ∧ c'.method = c.method ∧ c'.path = c.path ∧
         c'.originalUrl = c.originalUrl ∧ c'.headers = c.headers ∧ c'.body = c.body ∧
         c'.query = c.query ∧ c'.status = c.status ∧ c'.createdAt = c.createdAt ∧
         c'.resolvedAt = c.resolvedAt ∧ c'.resolvedBy = c.resolvedBy ∧
         c'.response = c.response ∧ c'.error = c.error)
       mStore.changes (moveChangesToChangeset ["m1"] "csB" mStore).changes ∧
     (moveChangesToChangeset ["m1"] "csB" mStore).changesets = mStore.changesets) :=
  ⟨rfl, rfl, rfl, move_reassigns_changesetId_only ["m1"] "csB" mStore mCsB rfl rfl rfl⟩

/-! ## Double execution under the interleaved schedule -/

/-- A pending change targeted by two concurrent approval calls. -/
def rChange : Change :=
  { id := "r1", changesetId := some "csR", method := "POST",
    path := "/proxy/v1/journals", originalUrl := "/proxy/v1/journals",
    headers := [], body := some "null", query := [], status := .pending,
    createdAt := "t1", resolvedAt := none, resolvedBy := none,
    response := none, error := none }

/-- Store holding only that pending change. -/
def rStore : Store := ⟨[], [rChange]⟩

/-- Downstream oracle that always succeeds. -/
def rExec : Change → Except String String := fun _ => .ok "resp"

/-- C3 evidence: under the schedule read-A, read-B, act-A, act-B both tasks
see the pending snapshot and both execute, so the downstream call count is 2
(the sequential schedule gives 1); and the status write itself is
unconditional — applied on top of an already-approved row it still
overwrites the terminal status.  The claimed atomic compare-and-set would
make both impossible. -/
theorem double_execution_race :
    (runRace rExec "r1" "rb" "t9" rStore [.a, .b, .a, .b]).execCount = 2 ∧
    (runRace rExec "r1" "rb" "t9" rStore [.a, .a, .b, .b]).execCount = 1 ∧
    (getPendingChangeById "r1"
        (updatePendingChangeStatus "r1" .rejected "rb2" none (some "late") "t2"
          (updatePendingChangeStatus "r1" .approved "rb" (some "resp") none "t1"
            rStore))).map (fun c => c.status) = some Status.rejected := by
  refine ⟨?_, ?_, ?_⟩ <;> rfl

/-! ## Non-numeric amount flows through the transform silently -/

/-- A simplified transaction line whose amount is not numeric. -/
def nanTx : Tx := ⟨some "5140", some "1020", some "abc"⟩

/-- A journal body carrying the non-numeric line. -/
def nanBody : JPayload := ⟨none, some "Broken import", some [nanTx], none, []⟩

/-- C4 evidence: on a journal body with a non-numeric amount, no transform
error is raised — `executeChange` proceeds to the network call (`.ok`), and
the outbound postings carry NaN (`none`, JSON-serialized as `null`) in both
amount fields. -/
theorem nan_amount_executes_anyway :
    parseFloatJsOpt nanTx.amount = none ∧
    executeChangeModel true "POST" true (some nanBody) =
      .ok ⟨"POST", true,
        some { title := some "Broken import", description := some "Broken import",
               transactions := none,
               postings := some
                 [⟨some 5140, "D", none, none, "EUR", false⟩,
                  ⟨some 1020, "C", none, none, "EUR", false⟩],
               rest := [] }⟩ := by
  refine ⟨rfl, ?_⟩
  rfl

/-! ## Transform lemmas -/

theorem normalize_idem (p : JPayload) :
    normalizeJournalPayload (normalizeJournalPayload p) = normalizeJournalPayload p := by
  unfold normalizeJournalPayload
  by_cases h : jsTruthy p.description = true ∧ ¬ jsTruthy p.title = true
  · rw [if_pos h]
    simp [h.1]
  · rw [if_neg h, if_neg h]

theorem normalize_fields (p : JPayload) :
    (normalizeJournalPayload p).transactions = p.transactions ∧
    (normalizeJournalPayload p).postings = p.postings ∧
    (normalizeJournalPayload p).description = p.description ∧
    (normalizeJournalPayload p).rest = p.rest ∧
    (normalizeJournalPayload p).title =
      (if jsTruthy p.description ∧ ¬ jsTruthy p.title then p.description else p.title) := by
  cases hd : jsTruthy p.description <;> cases htl : jsTruthy p.title <;>
    simp [normalizeJournalPayload, hd, htl]

theorem normalize_set_transactions (p : JPayload) (v : Option (List Tx)) :
    normalizeJournalPayload { p with transactions := v } =
      { normalizeJournalPayload p with transactions := v } := by
  cases hd : jsTruthy p.description <;> cases htl : jsTruthy p.title <;>
    simp [normalizeJournalPayload, hd, htl]

/-- C5: a simplified journal body (truthy `transactions`, falsy `postings`)
expands each line into up to two postings — debit entry and credit entry,
each carrying the same parsed amount in both amount fields, currency fixed
to EUR, marked not-deleted — the `transactions` key is removed, and `title`
defaults to `description` when the latter is present and the former absent;
`description` and all other keys survive unchanged. -/
theorem transform_simplified_expansion
    (p : JPayload)
    (ht : arrTruthy p.transactions = true)
    (hpn : arrTruthy p.postings = false) :
    (transformJournalBody p).transactions = none ∧
    (transformJournalBody p).postings =
      some ((p.transactions.getD []).flatMap txPostings) ∧
    (transformJournalBody p).title =
      (if jsTruthy p.description ∧ ¬ jsTruthy p.title then p.description else p.title) ∧
    (transformJournalBody p).description = p.description ∧
    (transformJournalBody p).rest = p.rest ∧
    (∀ tx : Tx,
      (txPostings tx).length ≤ 2 ∧
      (jsTruthy tx.debit_account = true →
        Posting.mk (parseIntJsOpt tx.debit_account) "D" (parseFloatJsOpt tx.amount)
          (parseFloatJsOpt tx.amount) "EUR" false ∈ txPostings tx) ∧
      (jsTruthy tx.credit_account = true →
        Posting.mk (parseIntJsOpt tx.credit_account) "C" (parseFloatJsOpt tx.amount)
          (parseFloatJsOpt tx.amount) "EUR" false ∈ txPostings tx) ∧
      (∀ e ∈ txPostings tx,
        e.amount = parseFloatJsOpt tx.amount ∧ e.base_amount = parseFloatJsOpt tx.amount ∧
        e.cl_currencies_id = "EUR" ∧ e.is_deleted = false)) := by
  have hcond : arrTruthy p.transactions = true ∧ ¬ arrTruthy p.postings = true := by
    simp [ht, hpn]
  unfold transformJournalBody
  rw [if_pos hcond]
  obtain ⟨h1, h2, h3, h4, h5⟩ := normalize_fields
    { p with postings := some ((p.transactions.getD []).flatMap txPostings) }
  refine ⟨rfl, ?_, ?_, ?_, ?_, ?_⟩
  · simpa using h2
  · simpa using h5
  · simpa using h3
  · simpa using h4
  · intro tx
    refine ⟨?_, ?_, ?_, ?_⟩
    · by_cases hd : jsTruthy tx.debit_account = true <;>
        by_cases hc : jsTruthy tx.credit_account = true <;>
        simp [txPostings, hd, hc]
    · intro hd
      by_cases hc : jsTruthy tx.credit_account = true <;> simp [txPostings, hd, hc]
    · intro hc
      by_cases hd : jsTruthy tx.debit_account = true <;> simp [txPostings, hd, hc]
    · intro e he
      by_cases hd : jsTruthy tx.debit_account = true
      · by_cases hc : jsTruthy tx.credit_account = true
        · simp [txPostings, hd, hc] at he
          rcases he with he | he <;> subst he <;> exact ⟨rfl, rfl, rfl, rfl⟩
        · simp [txPostings, hd, hc] at he
          subst he
          exact ⟨rfl, rfl, rfl, rfl⟩
      · by_cases hc : jsTruthy tx.credit_account = true
        · simp [txPostings, hd, hc] at he
          subst he
          exact ⟨rfl, rfl, rfl, rfl⟩
        · simp [txPostings, hd, hc] at he

/-- The office-supplies example line. -/
def exTx : Tx := ⟨some "5140", some "1020", some "125.50"⟩

/-- The office-supplies example body: one simplified line, a description and
no title. -/
def exBody : JPayload := ⟨none, some "Office supplies", some [exTx], none, []⟩

theorem transform_simplified_expansion_witness :
    arrTruthy exBody.transactions = true ∧
    arrTruthy exBody.postings = false ∧
    (transformJournalBody exBody).transactions = none ∧
    (transformJournalBody exBody).title = some "Office supplies" ∧
    parseFloatJsOpt exTx.amount = some ((251 : ℚ)/2) ∧
    (transformJournalBody exBody).postings =
      some [⟨some 5140, "D", parseFloatJsOpt exTx.amount,
               parseFloatJsOpt exTx.amount, "EUR", false⟩,
            ⟨some 1020, "C", parseFloatJsOpt exTx.amount,
               parseFloatJsOpt exTx.amount, "EUR", false⟩] := by
  have h := transform_simplified_expansion exBody rfl rfl
  have hval : parseFloatJsOpt exTx.amount =
      some ((125 : ℚ) + (50 : ℚ) / ((10 : ℚ) ^ 2)) := rfl
  refine ⟨rfl, rfl, h.1, ?_, ?_, ?_⟩
  · rw [h.2.2.1]
    decide
  · rw [hval]
    norm_num
  · rw [h.2.1]
    rfl

/-! ## Pass-through branch of the transform -/

/-- A body that already carries native postings, plus a description and no
title. -/
def passBody : JPayload :=
  ⟨none, some "memo", none, some [⟨some 1, "D", some 1, some 1, "EUR", false⟩], []⟩

theorem transform_native_not_unchanged :
    arrTruthy passBody.postings = true ∧
    transformJournalBody passBody ≠ passBody ∧
    (transformJournalBody passBody).title = some "memo" ∧
    passBody.title = none := by
  refine ⟨rfl, ?_, rfl, rfl⟩
  decide

theorem transform_else_eq (q : JPayload)
    (h : ¬ (arrTruthy q.transactions = true ∧ ¬ arrTruthy q.postings = true)) :
    transformJournalBody q = normalizeJournalPayload q := by
  unfold transformJournalBody
  rw [if_neg h]

theorem transform_then_eq (q : JPayload)
    (h : arrTruthy q.transactions = true ∧ ¬ arrTruthy q.postings = true) :
    transformJournalBody q =
      { normalizeJournalPayload
          { q with postings := some ((q.transactions.getD []).flatMap txPostings) } with
        transactions := none } := by
  unfold transformJournalBody
  rw [if_pos h]

/-- C6 amended: a payload already carrying the downstream-native line-item
field only goes through `normalizeJournalPayload` — its postings,
transactions, description and remaining keys are unchanged, and only `title`
may be set (to `description`, when `description` is truthy and `title`
falsy); and the whole transform is idempotent. -/
theorem transform_passthrough_idempotent :
    (∀ p : JPayload, arrTruthy p.postings = true →
      transformJournalBody p = normalizeJournalPayload p ∧
      (transformJournalBody p).postings = p.postings ∧
      (transformJournalBody p).transactions = p.transactions ∧
      (transformJournalBody p).description = p.description ∧
      (transformJournalBody p).rest = p.rest ∧
      (transformJournalBody p).title =
        (if jsTruthy p.description ∧ ¬ jsTruthy p.title then p.description else p.title)) ∧
    (∀ p : JPayload,
      transformJournalBody (transformJournalBody p) = transformJournalBody p) := by
  constructor
  · intro p hpost
    have hcond : ¬ (arrTruthy p.transactions = true ∧ ¬ arrTruthy p.postings = true) := by
      simp [hpost]
    have heq := transform_else_eq p hcond
    obtain ⟨h1, h2, h3, h4, h5⟩ := normalize_fields p
    exact ⟨heq, heq ▸ h2, heq ▸ h1, heq ▸ h3, heq ▸ h4, heq ▸ h5⟩
  · intro p
    by_cases hcond : arrTruthy p.transactions = true ∧ ¬ arrTruthy p.postings = true
    · have heq := transform_then_eq p hcond
      set n := normalizeJournalPayload
        { p with postings := some ((p.transactions.getD []).flatMap txPostings) } with hn
      have htrans : (transformJournalBody p).transactions = none := by
        rw [heq]
      have hcond2 : ¬ (arrTruthy (transformJournalBody p).transactions = true ∧
          ¬ arrTruthy (transformJournalBody p).postings = true) := by
        rw [htrans]
        simp [arrTruthy]
      calc transformJournalBody (transformJournalBody p)
          = normalizeJournalPayload (transformJournalBody p) :=
            transform_else_eq _ hcond2
        _ = normalizeJournalPayload { n with transactions := none } := by rw [heq]
        _ = { normalizeJournalPayload n with transactions := none } :=
            normalize_set_transactions n none
        _ = { n with transactions := none } := by rw [hn, normalize_idem]
        _ = transformJournalBody p := heq.symm
    · have heq := transform_else_eq p hcond
      have hcond2 : ¬ (arrTruthy (transformJournalBody p).transactions = true ∧
          ¬ arrTruthy (transformJournalBody p).postings = true) := by
        rw [heq]
        obtain ⟨h1, h2, _, _, _⟩ := normalize_fields p
        rw [h1, h2]
        exact hcond
      calc transformJournalBody (transformJournalBody p)
          = normalizeJournalPayload (transformJournalBody p) :=
            transform_else_eq _ hcond2
        _ = normalizeJournalPayload (normalizeJournalPayload p) := by rw [heq]
        _ = normalizeJournalPayload p := normalize_idem p
        _ = transformJournalBody p := heq.symm

theorem transform_passthrough_idempotent_witness :
    arrTruthy passBody.postings = true ∧
    transformJournalBody passBody = normalizeJournalPayload passBody ∧
    transformJournalBody (transformJournalBody passBody) = transformJournalBody passBody :=
  ⟨rfl, (transform_passthrough_idempotent.1 passBody rfl).1,
   transform_passthrough_idempotent.2 passBody⟩

/-! ## Signing lemmas -/

theorem isDigit_digitChar (n : Nat) : isDigitChar (digitChar n) = true := by
  have h : n % 10 < 10 := Nat.mod_lt _ (by norm_num)
  unfold digitChar isDigitChar
  revert h
  generalize n % 10 = k
  intro h
  interval_cases k <;> decide

theorem getUtcTimestamp_eq (dt : DateTimeUTC) :
    getUtcTimestamp dt = (⟨isoSecondsChars dt⟩ : String) := by
  unfold getUtcTimestamp stripMillisZ toISOString
  have hrev : ((isoSecondsChars dt ++ '.' :: threeDigits dt.millis ++ ['Z']) : List Char).reverse =
      'Z' :: digitChar dt.millis :: digitChar (dt.millis / 10) ::
        digitChar (dt.millis / 100) :: '.' :: (isoSecondsChars dt).reverse := by
    simp [threeDigits, List.reverse_append]
  have htl : ((⟨isoSecondsChars dt ++ '.' :: threeDigits dt.millis ++ ['Z']⟩ : String)).toList =
      isoSecondsChars dt ++ '.' :: threeDigits dt.millis ++ ['Z'] := rfl
  rw [htl, hrev]
  have hm : matchesMillisZ ('Z' :: digitChar dt.millis :: digitChar (dt.millis / 10) ::
      digitChar (dt.millis / 100) :: '.' :: (isoSecondsChars dt).reverse) = true := by
    simp [matchesMillisZ, isDigit_digitChar]
  rw [if_pos hm]
  simp

/-- C8: `signRequest` emits the current UTC instant truncated to whole
seconds in ISO-8601 form without a timezone suffix as the query-time header,
signs exactly the string `apiKeyId:timestamp:pathWithoutQuery` with the
HMAC-SHA384/base64 primitive keyed by the shared secret, and emits
`apiKeyPublic:signature` as the key header; the query string (everything
from the first `?`) is excluded from the signed path. -/
theorem sign_request_contract
    (method path : String) (c : ApiCredentials) (dt : DateTimeUTC)
    (hmac : String → String → String) :
    signRequest method path c dt hmac =
      [("X-AUTH-QUERYTIME", (⟨isoSecondsChars dt⟩ : String)),
       ("X-AUTH-KEY", c.apiKeyPublic ++ ":" ++
          hmac c.apiKeyPassword
            (c.apiKeyId ++ ":" ++ (⟨isoSecondsChars dt⟩ : String) ++ ":" ++
              pathBeforeQuery path))] ∧
    (∀ base q : String, (∀ ch ∈ base.toList, ch ≠ '?') →
      pathBeforeQuery (base ++ "?" ++ q) = base ∧ pathBeforeQuery base = base) := by
  constructor
  · unfold signRequest
    rw [getUtcTimestamp_eq]
  · intro base q hb
    have htake : ∀ (l m : List Char), (∀ ch ∈ l, ch ≠ '?') →
        (l ++ '?' :: m).takeWhile (fun ch => ch ≠ '?') = l ∧
        l.takeWhile (fun ch => ch ≠ '?') = l := by
      intro l m hl
      induction l with
      | nil =>
        constructor
        · show List.takeWhile (fun ch => ch ≠ '?') ('?' :: m) = []
          rw [List.takeWhile_cons, if_neg (by decide)]
        · rfl
      | cons x xs ih =>
        have hx : x ≠ '?' := hl x (List.mem_cons_self x xs)
        have hxs := ih (fun ch hc => hl ch (List.mem_cons_of_mem _ hc))
        constructor
        · show List.takeWhile (fun ch => ch ≠ '?') (x :: (xs ++ '?' :: m)) = x :: xs
          rw [List.takeWhile_cons, if_pos (decide_eq_true hx), hxs.1]
        · show List.takeWhile (fun ch => ch ≠ '?') (x :: xs) = x :: xs
          rw [List.takeWhile_cons, if_pos (decide_eq_true hx), hxs.2]
    have hl : (base ++ "?" ++ q).toList = base.toList ++ '?' :: q.toList := by
      show (base.toList ++ ['?']) ++ q.toList = base.toList ++ '?' :: q.toList
      rw [List.append_assoc]
      rfl
    obtain ⟨h1, h2⟩ := htake base.toList q.toList hb
    constructor
    · show (⟨((base ++ "?" ++ q).toList).takeWhile (fun ch => ch ≠ '?')⟩ : String) = base
      rw [hl, h1]
      rfl
    · show (⟨(base.toList).takeWhile (fun ch => ch ≠ '?')⟩ : String) = base
      rw [h2]
      rfl

/-- The concrete instant 2024-01-02 03:04:05.678 UTC. -/
def dt8 : DateTimeUTC := ⟨2024, 1, 2, 3, 4, 5, 678⟩

/-- Concrete credentials. -/
def creds8 : ApiCredentials := ⟨"key", "pub", "secret", "https://api.example/v1"⟩

/-- A concrete stand-in for the HMAC-SHA384/base64 primitive. -/
def hmac8 : String → String → String := fun k p => k ++ "|" ++ p

theorem sign_request_contract_witness :
    (∀ ch ∈ ("/v1/journals" : String).toList, ch ≠ '?') ∧
    getUtcTimestamp dt8 = "2024-01-02T03:04:05" ∧
    pathBeforeQuery ("/v1/journals" ++ "?" ++ "x=1") = "/v1/journals" ∧
    signRequest "POST" "/v1/journals?x=1" creds8 dt8 hmac8 =
      [("X-AUTH-QUERYTIME", "2024-01-02T03:04:05"),
       ("X-AUTH-KEY", "pub:" ++ hmac8 "secret" "key:2024-01-02T03:04:05:/v1/journals")] := by
  have h := sign_request_contract "POST" "/v1/journals?x=1" creds8 dt8 hmac8
  have hts : (⟨isoSecondsChars dt8⟩ : String) = "2024-01-02T03:04:05" := by decide
  refine ⟨by decide, ?_, ?_, ?_⟩
  · rw [getUtcTimestamp_eq dt8, hts]
  · exact (h.2 "/v1/journals" "x=1" (by decide)).1
  · rw [h.1, hts]
    decide

/-! ## Capture without a changeset reference -/

/-- A concrete inbound write request with no `x-changeset-id` header. -/
def cReq : CaptureReq :=
  ⟨"POST", "/proxy/v1/journals", "/proxy/v1/journals", [], some "null", [], none⟩

theorem capture_status_code_is_2xx :
    captureMiddleware cReq "ch1" "acs1" "t1" "loc" ⟨[], []⟩ =
      .captured ⟨202, "ch1", "acs1", "pending", "/review/ch1"⟩
        ⟨[autoChangeset "acs1" "t1" "loc"], [capturedChange cReq "ch1" "acs1" "t1"]⟩ 0 ∧
    200 ≤ 202 ∧ 202 ≤ 299 :=
  ⟨rfl, by decide, by decide⟩

/-- C7 amended: capturing a write with no changeset reference appends exactly
one fresh changeset and exactly one fresh pending change referencing it,
answers HTTP 202 Accepted (a 2xx status distinct from 200) with
`{changeId, changesetId, status: 'pending', reviewUrl}`, and makes zero
downstream API calls; under fresh ids the new changeset contains exactly the
one new change. -/
theorem capture_write_creates_singleton
    (req : CaptureReq) (changeId autoCsId now localeNow : String) (s : Store)
    (hw : isWriteOperation req.method = true)
    (hh : jsTruthy req.changesetHeader = false)
    (hfreshMember : ∀ c ∈ s.changes, c.changesetId ≠ some autoCsId)
    (hfreshCh : ∀ c ∈ s.changes, c.id ≠ changeId)
    (hfreshCs : ∀ cs ∈ s.changesets, cs.id ≠ autoCsId) :
    captureMiddleware req changeId autoCsId now localeNow s =
      .captured ⟨202, changeId, autoCsId, "pending", "/review/" ++ changeId⟩
        ⟨s.changesets ++ [autoChangeset autoCsId now localeNow],
         s.changes ++ [capturedChange req changeId autoCsId now]⟩ 0 ∧
    membersOf autoCsId
        ⟨s.changesets ++ [autoChangeset autoCsId now localeNow],
         s.changes ++ [capturedChange req changeId autoCsId now]⟩ =
      [capturedChange req changeId autoCsId now] ∧
    getPendingChangeById changeId
        ⟨s.changesets ++ [autoChangeset autoCsId now localeNow],
         s.changes ++ [capturedChange req changeId autoCsId now]⟩ =
      some (capturedChange req changeId autoCsId now) ∧
    findChangeset autoCsId
        ⟨s.changesets ++ [autoChangeset autoCsId now localeNow],
         s.changes ++ [capturedChange req changeId autoCsId now]⟩ =
      some (autoChangeset autoCsId now localeNow) ∧
    (capturedChange req changeId autoCsId now).status = .pending ∧
    (capturedChange req changeId autoCsId now).changesetId = some autoCsId ∧
    (capturedChange req changeId autoCsId now).response = none ∧
    (capturedChange req changeId autoCsId now).error = none := by
  refine ⟨?_, ?_, ?_, ?_, rfl, rfl, rfl, rfl⟩
  · unfold captureMiddleware
    rw [hh]
    simp only [hw, not_true, if_neg, ite_false, Bool.false_eq_true, if_false]
    rfl
  · unfold membersOf
    simp only []
    rw [List.filter_append]
    have hnil : s.changes.filter (fun c => decide (c.changesetId = some autoCsId)) = [] := by
      rw [List.filter_eq_nil_iff]
      intro c hc
      simpa using hfreshMember c hc
    rw [hnil]
    simp [capturedChange]
  · unfold getPendingChangeById
    simp only []
    rw [List.find?_append]
    have hnone : s.changes.find? (fun c => decide (c.id = changeId)) = none := by
      rw [List.find?_eq_none]
      intro c hc
      simpa using hfreshCh c hc
    rw [hnone]
    simp [capturedChange]
  · unfold findChangeset
    simp only []
    rw [List.find?_append]
    have hnone : s.changesets.find? (fun cs => decide (cs.id = autoCsId)) = none := by
      rw [List.find?_eq_none]
      intro cs hc
      simpa using hfreshCs cs hc
    rw [hnone]
    simp [autoChangeset]

theorem capture_write_creates_singleton_witness :
    isWriteOperation cReq.method = true ∧
    jsTruthy cReq.changesetHeader = false ∧
    (captureMiddleware cReq "ch1" "acs1" "t1" "loc" ⟨[], []⟩ =
       .captured ⟨202, "ch1", "acs1", "pending", "/review/" ++ "ch1"⟩
         ⟨[autoChangeset "acs1" "t1" "loc"], [capturedChange cReq "ch1" "acs1" "t1"]⟩ 0 ∧
     membersOf "acs1" ⟨[autoChangeset "acs1" "t1" "loc"],
         [capturedChange cReq "ch1" "acs1" "t1"]⟩ =
       [capturedChange cReq "ch1" "acs1" "t1"] ∧
     getPendingChangeById "ch1" ⟨[autoChangeset "acs1" "t1" "loc"],
         [capturedChange cReq "ch1" "acs1" "t1"]⟩ =
       some (capturedChange cReq "ch1" "acs1" "t1") ∧
     findChangeset "acs1" ⟨[autoChangeset "acs1" "t1" "loc"],
         [capturedChange cReq "ch1" "acs1" "t1"]⟩ =
       some (autoChangeset "acs1" "t1" "loc") ∧
     (capturedChange cReq "ch1" "acs1" "t1").status = .pending ∧
     (capturedChange cReq "ch1" "acs1" "t1").changesetId = some "acs1" ∧
     (capturedChange cReq "ch1" "acs1" "t1").response = none ∧
     (capturedChange cReq "ch1" "acs1" "t1").error = none) := by
  refine ⟨rfl, rfl, ?_⟩
  have h := capture_write_creates_singleton cReq "ch1" "acs1" "t1" "loc" ⟨[], []⟩
    rfl rfl (by intro c hc; cases hc) (by intro c hc; cases hc) (by intro cs hc; cases hc)
  exact h

end ArveldajaProxy
